import Mathlib

/-
Verification of the user-icon caching subsystem of an isucon13 web
application (src/go/user_handler.go).

The embedding models the subsystem as a state machine.  The state `St`
holds the durable store (users, icons, themes tables) together with the
two cache tiers: the on-disk blob cache (one file per user id) and the
in-process icon hash index (`iconHashCache`).  Go maps and SQL tables
keyed by int64 user ids are modelled as association lists over `Int`
(ids are only compared for equality, so int64 overflow is irrelevant).
Image byte slices are `List Nat`.

The SHA-256 hex digest `fmt.Sprintf("%x", sha256.Sum256 b)` is
abstracted as a function parameter `Env.H : Bytes -> String`; the model
never relies on any property of the digest beyond it being a function.
The fallback image bytes are `Env.fallbackBytes`, and `Env.fbHash`
models `fallbackImageHash` computed once by `initIconCache`.

Fallible filesystem writes to the blob cache (`os.WriteFile`, whose
error the Go code logs and swallows) are modelled by a boolean success
flag passed to each operation (`wOk`); a failed write leaves the blob
cache unchanged.  Blob-cache reads of an existing file and database
operations are modelled as infallible (the handlers surface 500 on a
database error before any interesting logic runs).
-/

/-- Image bytes, modelling Go `[]byte`. -/
abbrev Bytes := List Nat

/-- Association-list lookup, modelling a Go map read / SQL point query
keyed by user id. -/
def alookup {α : Type} : List (Int × α) → Int → Option α
  | [], _ => none
  | (k, v) :: rest, k2 => if k2 = k then some v else alookup rest k2

/-- Association-list overwrite, modelling Go `m[k] = v` (replaces any
existing binding, otherwise appends). -/
def aset {α : Type} : List (Int × α) → Int → α → List (Int × α)
  | [], k, v => [(k, v)]
  | (k2, v2) :: rest, k, v =>
    if k = k2 then (k, v) :: rest else (k2, v2) :: aset rest k v

/-- Association-list removal, modelling `DELETE FROM icons WHERE user_id = ?`. -/
def aremove {α : Type} : List (Int × α) → Int → List (Int × α)
  | [], _ => []
  | (k2, v2) :: rest, k =>
    if k = k2 then aremove rest k else (k2, v2) :: aremove rest k

theorem alookup_aset_self {α : Type} (l : List (Int × α)) (k : Int) (v : α) :
    alookup (aset l k v) k = some v := by
  induction l with
  | nil => simp [aset, alookup]
  | cons p rest ih =>
    obtain ⟨k2, v2⟩ := p
    by_cases h : k = k2
    · simp [aset, h, alookup]
    · simp [aset, h, alookup, ih]

theorem alookup_aset_ne {α : Type} (l : List (Int × α)) (k k2 : Int) (v : α)
    (h : k ≠ k2) : alookup (aset l k2 v) k = alookup l k := by
  induction l with
  | nil => simp [aset, alookup, h]
  | cons p rest ih =>
    obtain ⟨k3, v3⟩ := p
    by_cases h2 : k2 = k3
    · subst h2
      simp [aset, alookup, h, if_neg h]
    · by_cases h3 : k = k3
      · simp [aset, h2, alookup, h3]
      · simp [aset, h2, alookup, h3, ih]

theorem alookup_aremove_self {α : Type} (l : List (Int × α)) (k : Int) :
    alookup (aremove l k) k = none := by
  induction l with
  | nil => simp [aremove, alookup]
  | cons p rest ih =>
    obtain ⟨k2, v2⟩ := p
    by_cases h : k = k2
    · subst h
      simp [aremove, ih]
    · simp [aremove, h, alookup, ih, Ne.symm h]

theorem alookup_aremove_ne {α : Type} (l : List (Int × α)) (k k2 : Int)
    (h : k ≠ k2) : alookup (aremove l k2) k = alookup l k := by
  induction l with
  | nil => simp [aremove, alookup]
  | cons p rest ih =>
    obtain ⟨k3, v3⟩ := p
    by_cases h2 : k2 = k3
    · subst h2
      simp [aremove, alookup, if_neg h, ih]
    · by_cases h3 : k = k3
      · simp [aremove, h2, alookup, h3]
      · simp [aremove, h2, alookup, h3, ih]

/-- Process-wide read-only environment: the abstract hex digest function
(`sha256.Sum256` rendered with `%x`) and the static fallback image. -/
structure Env where
  H : Bytes → String
  fallbackBytes : Bytes

/-- Hash of the fallback image, computed once at startup by
`initIconCache` (user_handler.go lines 52-58). -/
def Env.fbHash (e : Env) : String := e.H e.fallbackBytes

/-- Quoted validator string, modelling `fmt.Sprintf("\x22%s\x22", hash)`. -/
def quoteHash (h : String) : String := "\"" ++ h ++ "\""

/-- Model of `ThemeModel` (user_handler.go lines 124-128). -/
structure ThemeModel where
  id : Int
  userId : Int
  darkMode : Bool
deriving DecidableEq

/-- Model of `UserModel` (user_handler.go lines 102-108). -/
structure UserModel where
  id : Int
  name : String
  displayName : String
  description : String
  hashedPassword : String
deriving DecidableEq

/-- Model of the filled `User` response (user_handler.go lines 110-117),
with the nested `Theme` flattened into two fields. -/
structure User where
  id : Int
  name : String
  displayName : String
  description : String
  themeId : Int
  themeDarkMode : Bool
  iconHash : String
deriving DecidableEq

/-- System state: durable store tables plus the two cache tiers.
`blob` is the icon cache directory (one file per user id, keyed by the
id used in `getIconPath`); `hashC` is the in-memory `iconHashCache`;
`nextIconId` models the AUTO_INCREMENT id returned by `LastInsertId`. -/
structure St where
  users : List (Int × String)
  icons : List (Int × Bytes)
  themes : List ThemeModel
  blob : List (Int × Bytes)
  hashC : List (Int × String)
  nextIconId : Int
deriving DecidableEq

/-- HTTP response as far as the claims observe it: status code, optional
ETag header, optional body bytes. -/
structure HttpResponse where
  status : Nat
  etag : Option String
  body : Option Bytes
deriving DecidableEq

/-- Counts of the observable effects of one request: batched or point
icons-table queries, themes-table queries, and reads of the user's blob
cache file (`os.ReadFile` / `c.File`). -/
structure Eff where
  iconQueries : Nat
  themeQueries : Nat
  blobReads : Nat
deriving DecidableEq

/-- Response of `postIconHandler`: status plus the JSON `{"id": ...}` payload. -/
structure PostResp where
  status : Nat
  id : Int
deriving DecidableEq

/-- Model of `SELECT * FROM users WHERE name = ?` (first row with the
given name; the column is UNIQUE in the schema). -/
def lookupUserByName : List (Int × String) → String → Option Int
  | [], _ => none
  | (id, n) :: rest, nm => if n = nm then some id else lookupUserByName rest nm

/-- Conditional-response step of the handler, translated from
user_handler.go lines 235-242 (and identical in shape to lines 213-218
for the fallback image): 304 with no body when `If-None-Match` equals
the quoted hash exactly, otherwise 200 with the bytes and a quoted-hash
ETag header. -/
def condStep (h : String) (b : Bytes) (ifNoneMatch : String) : HttpResponse :=
  if ifNoneMatch = quoteHash h then ⟨304, none, none⟩
  else ⟨200, some (quoteHash h), some b⟩

/-- Model of `getIconHandler` (user_handler.go lines 157-243).
Branches, in source order: unknown username gives 404; if the blob
cache file exists, the cached hash (or, when absent, one freshly
computed from the file bytes, which is then stored) drives the
conditional response, reading the file only when a body is served;
otherwise one icons-table query is made, a hit is written through to
the blob cache (best-effort, `wOk`) and the hash index before the
conditional response, and a miss serves the fallback image with the
precomputed fallback hash. -/
def getIconHandler (env : Env) (st : St) (username ifNoneMatch : String)
    (wOk : Bool) : HttpResponse × St × Eff :=
  match lookupUserByName st.users username with
  | none => (⟨404, none, none⟩, st, ⟨0, 0, 0⟩)
  | some uid =>
    match alookup st.blob uid with
    | some fileBytes =>
      match alookup st.hashC uid with
      | some h =>
        if ifNoneMatch = quoteHash h then (⟨304, none, none⟩, st, ⟨0, 0, 0⟩)
        else (⟨200, some (quoteHash h), some fileBytes⟩, st, ⟨0, 0, 1⟩)
      | none =>
        let h := env.H fileBytes
        let st1 : St := { st with hashC := aset st.hashC uid h }
        if ifNoneMatch = quoteHash h then (⟨304, none, none⟩, st1, ⟨0, 0, 1⟩)
        else (⟨200, some (quoteHash h), some fileBytes⟩, st1, ⟨0, 0, 2⟩)
    | none =>
      match alookup st.icons uid with
      | none => (condStep env.fbHash env.fallbackBytes ifNoneMatch, st, ⟨1, 0, 0⟩)
      | some image =>
        let st1 : St := if wOk then { st with blob := aset st.blob uid image } else st
        let st2 : St := { st1 with hashC := aset st1.hashC uid (env.H image) }
        (condStep (env.H image) image ifNoneMatch, st2, ⟨1, 0, 0⟩)

/-- Events emitted by the upload path, in execution order. -/
inductive Ev where
  | dbDelete
  | dbInsert
  | dbCommit
  | blobWriteOk
  | blobWriteFail
  | hashSet
deriving DecidableEq

/-- Model of `postIconHandler` (user_handler.go lines 245-300), after
session checks: replace the icons row inside a transaction and commit,
then best-effort overwrite of the blob cache file, then overwrite of
the hash index entry, then 201 with the new row id. -/
def postIconHandler (env : Env) (st : St) (uid : Int) (image : Bytes)
    (wOk : Bool) : PostResp × St × List Ev :=
  let iconId := st.nextIconId
  let stDb : St := { st with icons := aset (aremove st.icons uid) uid image,
                             nextIconId := st.nextIconId + 1 }
  let st1 : St := if wOk then { stDb with blob := aset stDb.blob uid image } else stDb
  let st2 : St := { st1 with hashC := aset st1.hashC uid (env.H image) }
  (⟨201, iconId⟩, st2,
    [Ev.dbDelete, Ev.dbInsert, Ev.dbCommit]
      ++ (if wOk then [Ev.blobWriteOk] else [Ev.blobWriteFail]) ++ [Ev.hashSet])

/-- Model of `clearIconCache` (user_handler.go lines 63-83): empties the
hash index and removes every blob cache file; never touches the durable
store. -/
def clearIconCache (st : St) : St := { st with blob := [], hashC := [] }

/-- User-id collection with duplicates collapsed (user_handler.go lines
557-564 build a Go set map and iterate it in unspecified order; the
model fixes one order, which no claim observes). -/
def dedupIds : List UserModel → List Int
  | [] => []
  | m :: rest =>
    let r := dedupIds rest
    if m.id ∈ r then r else m.id :: r

/-- The not-yet-cached side of the partition at lines 580-589: ids with
no hash index entry, in order. -/
def uncachedIds (hc : List (Int × String)) (ids : List Int) : List Int :=
  ids.filter (fun id => (alookup hc id).isNone)

/-- The cached side of the partition at lines 580-589: `iconHashMap`
seeded with the hash index hits. -/
def cachedPairs (hc : List (Int × String)) (ids : List Int) : List (Int × String) :=
  ids.filterMap (fun id => (alookup hc id).map (fun h => (id, h)))

/-- Model of the batched query `SELECT user_id, image FROM icons WHERE
user_id IN (...)` (lines 592-600): the `(user_id, image)` rows for
whichever requested ids have an icons row. -/
def iconRows (icons : List (Int × Bytes)) (ids : List Int) : List (Int × Bytes) :=
  ids.filterMap (fun id => (alookup icons id).map (fun b => (id, b)))

/-- Per-row processing loop of lines 602-616: for each returned row
compute the digest, record it in `iconHashMap`, store it in the hash
index, and write the bytes to the blob cache file when no such file
exists (best-effort; `wOk` tells whether the filesystem write
succeeds). Returns the updated state and `iconHashMap`. -/
def applyRows (env : Env) (wOk : Int → Bool) :
    List (Int × Bytes) → St → List (Int × String) → St × List (Int × String)
  | [], st, m => (st, m)
  | (uid, img) :: rest, st, m =>
    let h := env.H img
    let m1 := aset m uid h
    let st1 : St := { st with hashC := aset st.hashC uid h }
    let st2 : St :=
      if alookup st1.blob uid = none ∧ wOk uid then
        { st1 with blob := aset st1.blob uid img }
      else st1
    applyRows env wOk rest st2 m1

/-- Fallback loop of lines 618-623: every uncached id that the batched
query returned no row for gets `fallbackImageHash` in `iconHashMap`
(and, deliberately, no hash index entry). -/
def addFallbacks (fb : String) (rowIds : List Int) :
    List Int → List (Int × String) → List (Int × String)
  | [], m => m
  | uid :: rest, m =>
    addFallbacks fb rowIds rest (if uid ∈ rowIds then m else aset m uid fb)

/-- Theme lookup modelling `themeMap[userModel.ID]` built from the
batched themes query (lines 566-578); at most one row per user in the
schema. -/
def findTheme : List ThemeModel → Int → Option ThemeModel
  | [], _ => none
  | t :: rest, uid => if t.userId = uid then some t else findTheme rest uid

/-- Response construction loop of lines 626-646, including the
`iconHash == ""` safety net that substitutes the fallback hash for a
missing `iconHashMap` entry (Go zero value). -/
def buildUsers (env : Env) (themes : List ThemeModel)
    (m : List (Int × String)) (models : List UserModel) : List User :=
  models.map (fun um =>
    let t := (findTheme themes um.id).getD ⟨0, 0, false⟩
    let h0 := (alookup m um.id).getD ""
    let h := if h0 = "" then env.fbHash else h0
    ⟨um.id, um.name, um.displayName, um.description, t.id, t.darkMode, h⟩)

/-- Model of `fillUsersResponse` (user_handler.go lines 551-649): early
return on an empty input; otherwise one batched themes query, a
partition of the deduplicated ids by hash index membership, at most one
batched icons query (issued only when some id is uncached), per-row
cache population, fallback hashes for uncached ids with no row, and the
assembled `User` list. -/
def fillUsersResponse (env : Env) (st : St) (wOk : Int → Bool)
    (models : List UserModel) : List User × St × Eff :=
  if models.isEmpty then ([], st, ⟨0, 0, 0⟩)
  else
    let ids := dedupIds models
    let cachedMap := cachedPairs st.hashC ids
    let uncached := uncachedIds st.hashC ids
    if uncached.isEmpty then
      (buildUsers env st.themes cachedMap models, st, ⟨0, 1, 0⟩)
    else
      let rows := iconRows st.icons uncached
      let out := applyRows env wOk rows st cachedMap
      let m2 := addFallbacks env.fbHash (rows.map Prod.fst) uncached out.2
      (buildUsers env st.themes m2 models, out.1, ⟨1, 1, 0⟩)

/-- States reachable from a fresh process (empty caches, arbitrary
durable store) by any sequence of the core operations. -/
inductive Reachable (env : Env) : St → Prop where
  | base (users : List (Int × String)) (icons : List (Int × Bytes))
      (themes : List ThemeModel) (n : Int) :
      Reachable env ⟨users, icons, themes, [], [], n⟩
  | get (st : St) (un inm : String) (w : Bool) :
      Reachable env st → Reachable env (getIconHandler env st un inm w).2.1
  | post (st : St) (uid : Int) (img : Bytes) (w : Bool) :
      Reachable env st → Reachable env (postIconHandler env st uid img w).2.1
  | fill (st : St) (w : Int → Bool) (ms : List UserModel) :
      Reachable env st → Reachable env (fillUsersResponse env st w ms).2.1
  | clear (st : St) :
      Reachable env st → Reachable env (clearIconCache st)

/-- Coherence of the hash index (spec section 3, HashIndexEntry
invariant): every entry is the digest of the bytes the blob cache or
the durable store currently holds for that user. -/
def HashIdxOK (env : Env) (st : St) : Prop :=
  ∀ uid h, alookup st.hashC uid = some h →
    (∃ b, alookup st.blob uid = some b ∧ h = env.H b) ∨
    (∃ b, alookup st.icons uid = some b ∧ h = env.H b)

/-- Every blob cache file belongs to a user that has an icons row (blob
entries are only ever written from a durable-store hit or an upload,
and rows are never deleted without replacement). -/
def BlobBacked (st : St) : Prop :=
  ∀ uid b, alookup st.blob uid = some b → ∃ b2, alookup st.icons uid = some b2

theorem mem_dedupIds (ms : List UserModel) (id : Int) :
    id ∈ dedupIds ms ↔ ∃ m ∈ ms, m.id = id := by
  induction ms with
  | nil => simp [dedupIds]
  | cons m rest ih =>
    by_cases h : m.id ∈ dedupIds rest
    · simp only [dedupIds, if_pos h, ih, List.mem_cons]
      constructor
      · rintro ⟨m2, hm2, he⟩
        exact ⟨m2, Or.inr hm2, he⟩
      · rintro ⟨m2, hm2 | hm2, he⟩
        · subst hm2
          subst he
          exact ih.mp h
        · exact ⟨m2, hm2, he⟩
    · simp only [dedupIds, if_neg h, List.mem_cons, ih]
      constructor
      · rintro (he | ⟨m2, hm2, he⟩)
        · exact ⟨m, Or.inl rfl, he.symm⟩
        · exact ⟨m2, Or.inr hm2, he⟩
      · rintro ⟨m2, hm2 | hm2, he⟩
        · subst hm2
          exact Or.inl he.symm
        · exact Or.inr ⟨m2, hm2, he⟩

theorem nodup_dedupIds (ms : List UserModel) : (dedupIds ms).Nodup := by
  induction ms with
  | nil => simp [dedupIds]
  | cons m rest ih =>
    by_cases h : m.id ∈ dedupIds rest
    · simpa [dedupIds, if_pos h] using ih
    · simpa [dedupIds, if_neg h] using ⟨h, ih⟩

theorem mem_uncachedIds (hc : List (Int × String)) (ids : List Int) (id : Int) :
    id ∈ uncachedIds hc ids ↔ id ∈ ids ∧ alookup hc id = none := by
  simp [uncachedIds, List.mem_filter, Option.isNone_iff_eq_none]

theorem nodup_uncachedIds (hc : List (Int × String)) (ids : List Int)
    (h : ids.Nodup) : (uncachedIds hc ids).Nodup :=
  h.filter _

theorem iconRows_cons_none (icons : List (Int × Bytes)) (id : Int)
    (rest : List Int) (hl : alookup icons id = none) :
    iconRows icons (id :: rest) = iconRows icons rest := by
  simp [iconRows, List.filterMap_cons, hl]

theorem iconRows_cons_some (icons : List (Int × Bytes)) (id : Int)
    (rest : List Int) (b : Bytes) (hl : alookup icons id = some b) :
    iconRows icons (id :: rest) = (id, b) :: iconRows icons rest := by
  simp [iconRows, List.filterMap_cons, hl]

theorem mem_iconRows (icons : List (Int × Bytes)) (ids : List Int)
    (uid : Int) (b : Bytes) :
    (uid, b) ∈ iconRows icons ids ↔ uid ∈ ids ∧ alookup icons uid = some b := by
  induction ids with
  | nil => simp [iconRows]
  | cons id rest ih =>
    cases hl : alookup icons id with
    | none =>
      rw [iconRows_cons_none icons id rest hl, ih]
      constructor
      · rintro ⟨h1, h2⟩
        exact ⟨List.mem_cons_of_mem _ h1, h2⟩
      · rintro ⟨h1, h2⟩
        rcases List.mem_cons.mp h1 with he | h1
        · subst he
          rw [hl] at h2
          cases h2
        · exact ⟨h1, h2⟩
    | some b2 =>
      rw [iconRows_cons_some icons id rest b2 hl]
      constructor
      · intro hm
        rcases List.mem_cons.mp hm with he | hm
        · rw [Prod.mk.injEq] at he
          obtain ⟨he1, he2⟩ := he
          subst he1
          subst he2
          exact ⟨List.mem_cons.mpr (Or.inl rfl), hl⟩
        · obtain ⟨h1, h2⟩ := ih.mp hm
          exact ⟨List.mem_cons_of_mem _ h1, h2⟩
      · rintro ⟨h1, h2⟩
        rcases List.mem_cons.mp h1 with he | h1
        · subst he
          rw [hl] at h2
          injection h2 with h2
          subst h2
          exact List.mem_cons.mpr (Or.inl rfl)
        · exact List.mem_cons_of_mem _ (ih.mpr ⟨h1, h2⟩)

theorem mem_iconRows_keys (icons : List (Int × Bytes)) (ids : List Int)
    (uid : Int) :
    uid ∈ (iconRows icons ids).map Prod.fst ↔
      uid ∈ ids ∧ ∃ b, alookup icons uid = some b := by
  constructor
  · intro hm
    obtain ⟨p, hp, he⟩ := List.mem_map.mp hm
    obtain ⟨u2, b2⟩ := p
    have he2 : u2 = uid := he
    subst he2
    obtain ⟨h1, h2⟩ := (mem_iconRows icons ids u2 b2).mp hp
    exact ⟨h1, b2, h2⟩
  · rintro ⟨hid, b, hb⟩
    exact List.mem_map.mpr ⟨(uid, b), (mem_iconRows icons ids uid b).mpr ⟨hid, hb⟩, rfl⟩

theorem nodup_iconRows_keys (icons : List (Int × Bytes)) (ids : List Int) :
    ids.Nodup → ((iconRows icons ids).map Prod.fst).Nodup := by
  induction ids with
  | nil =>
    intro _
    simp [iconRows]
  | cons id rest ih =>
    intro h
    obtain ⟨hni, hrest⟩ := List.nodup_cons.mp h
    cases hl : alookup icons id with
    | none =>
      rw [iconRows_cons_none icons id rest hl]
      exact ih hrest
    | some b =>
      rw [iconRows_cons_some icons id rest b hl, List.map_cons]
      refine List.nodup_cons.mpr ⟨fun hmem => ?_, ih hrest⟩
      exact hni ((mem_iconRows_keys icons rest id).mp hmem).1

theorem alookup_cachedPairs_of_none (hc : List (Int × String))
    (ids : List Int) (uid : Int) (h : alookup hc uid = none) :
    alookup (cachedPairs hc ids) uid = none := by
  induction ids with
  | nil => simp [cachedPairs, alookup]
  | cons id rest ih =>
    cases hl : alookup hc id with
    | none => simpa [cachedPairs, List.filterMap_cons, hl] using ih
    | some h2 =>
      have hne : uid ≠ id := by
        rintro rfl
        rw [h] at hl
        cases hl
      simpa [cachedPairs, List.filterMap_cons, hl, alookup, hne] using ih

theorem applyRows_fixed (env : Env) (wOk : Int → Bool)
    (rows : List (Int × Bytes)) (st : St) (m : List (Int × String)) :
    (applyRows env wOk rows st m).1.users = st.users ∧
    (applyRows env wOk rows st m).1.icons = st.icons ∧
    (applyRows env wOk rows st m).1.themes = st.themes ∧
    (applyRows env wOk rows st m).1.nextIconId = st.nextIconId := by
  induction rows generalizing st m with
  | nil => exact ⟨rfl, rfl, rfl, rfl⟩
  | cons p rest ih =>
    obtain ⟨uid, img⟩ := p
    rw [applyRows]
    split
    · exact ih _ _
    · exact ih _ _

theorem applyRows_hashC_not_mem (env : Env) (wOk : Int → Bool)
    (rows : List (Int × Bytes)) (st : St) (m : List (Int × String)) (uid : Int)
    (h : uid ∉ rows.map Prod.fst) :
    alookup (applyRows env wOk rows st m).1.hashC uid = alookup st.hashC uid := by
  induction rows generalizing st m with
  | nil => rfl
  | cons p rest ih =>
    obtain ⟨k, img⟩ := p
    have hk : uid ≠ k := fun he => h (by simp [he])
    have hrest : uid ∉ rest.map Prod.fst := fun hm => h (by simp [List.mem_map] at hm ⊢; tauto)
    rw [applyRows]
    split
    · rw [ih _ _ hrest]
      exact alookup_aset_ne st.hashC uid k _ hk
    · rw [ih _ _ hrest]
      exact alookup_aset_ne st.hashC uid k _ hk

theorem applyRows_blob_not_mem (env : Env) (wOk : Int → Bool)
    (rows : List (Int × Bytes)) (st : St) (m : List (Int × String)) (uid : Int)
    (h : uid ∉ rows.map Prod.fst) :
    alookup (applyRows env wOk rows st m).1.blob uid = alookup st.blob uid := by
  induction rows generalizing st m with
  | nil => rfl
  | cons p rest ih =>
    obtain ⟨k, img⟩ := p
    have hk : uid ≠ k := fun he => h (by simp [he])
    have hrest : uid ∉ rest.map Prod.fst := fun hm => h (by simp [List.mem_map] at hm ⊢; tauto)
    rw [applyRows]
    split
    · rw [ih _ _ hrest]
      exact alookup_aset_ne st.blob uid k _ hk
    · rw [ih _ _ hrest]

theorem applyRows_m_not_mem (env : Env) (wOk : Int → Bool)
    (rows : List (Int × Bytes)) (st : St) (m : List (Int × String)) (uid : Int)
    (h : uid ∉ rows.map Prod.fst) :
    alookup (applyRows env wOk rows st m).2 uid = alookup m uid := by
  induction rows generalizing st m with
  | nil => rfl
  | cons p rest ih =>
    obtain ⟨k, img⟩ := p
    have hk : uid ≠ k := fun he => h (by simp [he])
    have hrest : uid ∉ rest.map Prod.fst := fun hm => h (by simp [List.mem_map] at hm ⊢; tauto)
    rw [applyRows]
    split
    · rw [ih _ _ hrest]
      exact alookup_aset_ne m uid k _ hk
    · rw [ih _ _ hrest]
      exact alookup_aset_ne m uid k _ hk

theorem applyRows_hashC_mem (env : Env) (wOk : Int → Bool)
    (rows : List (Int × Bytes)) (st : St) (m : List (Int × String))
    (uid : Int) (img : Bytes)
    (hnd : (rows.map Prod.fst).Nodup) (hm : (uid, img) ∈ rows) :
    alookup (applyRows env wOk rows st m).1.hashC uid = some (env.H img) := by
  induction rows generalizing st m with
  | nil => cases hm
  | cons p rest ih =>
    obtain ⟨k, b⟩ := p
    rw [List.map_cons, List.nodup_cons] at hnd
    obtain ⟨hknotin, hndrest⟩ := hnd
    rcases List.mem_cons.mp hm with he | hmr
    · rw [Prod.mk.injEq] at he
      obtain ⟨he1, he2⟩ := he
      subst he1
      subst he2
      have hnotin : uid ∉ rest.map Prod.fst := hknotin
      rw [applyRows]
      split
      · rw [applyRows_hashC_not_mem env wOk rest _ _ uid hnotin]
        exact alookup_aset_self st.hashC uid _
      · rw [applyRows_hashC_not_mem env wOk rest _ _ uid hnotin]
        exact alookup_aset_self st.hashC uid _
    · rw [applyRows]
      split
      · exact ih _ _ hndrest hmr
      · exact ih _ _ hndrest hmr

theorem applyRows_m_mem (env : Env) (wOk : Int → Bool)
    (rows : List (Int × Bytes)) (st : St) (m : List (Int × String))
    (uid : Int) (img : Bytes)
    (hnd : (rows.map Prod.fst).Nodup) (hm : (uid, img) ∈ rows) :
    alookup (applyRows env wOk rows st m).2 uid = some (env.H img) := by
  induction rows generalizing st m with
  | nil => cases hm
  | cons p rest ih =>
    obtain ⟨k, b⟩ := p
    rw [List.map_cons, List.nodup_cons] at hnd
    obtain ⟨hknotin, hndrest⟩ := hnd
    rcases List.mem_cons.mp hm with he | hmr
    · rw [Prod.mk.injEq] at he
      obtain ⟨he1, he2⟩ := he
      subst he1
      subst he2
      have hnotin : uid ∉ rest.map Prod.fst := hknotin
      rw [applyRows]
      split
      · rw [applyRows_m_not_mem env wOk rest _ _ uid hnotin]
        exact alookup_aset_self m uid _
      · rw [applyRows_m_not_mem env wOk rest _ _ uid hnotin]
        exact alookup_aset_self m uid _
    · rw [applyRows]
      split
      · exact ih _ _ hndrest hmr
      · exact ih _ _ hndrest hmr

theorem applyRows_blob_some (env : Env) (wOk : Int → Bool)
    (rows : List (Int × Bytes)) (st : St) (m : List (Int × String))
    (uid : Int) (b : Bytes) (hb : alookup st.blob uid = some b) :
    alookup (applyRows env wOk rows st m).1.blob uid = some b := by
  induction rows generalizing st m with
  | nil => exact hb
  | cons p rest ih =>
    obtain ⟨k, img⟩ := p
    rw [applyRows]
    split
    case isTrue hcond =>
      refine ih _ _ ?_
      have hk : uid ≠ k := by
        rintro rfl
        rw [hb] at hcond
        cases hcond.1
      rw [alookup_aset_ne _ uid k _ hk]
      exact hb
    case isFalse hcond => exact ih _ _ hb

theorem applyRows_blob_write (env : Env) (wOk : Int → Bool)
    (rows : List (Int × Bytes)) (st : St) (m : List (Int × String))
    (uid : Int) (img : Bytes)
    (hnd : (rows.map Prod.fst).Nodup) (hm : (uid, img) ∈ rows)
    (hb : alookup st.blob uid = none) (hw : wOk uid = true) :
    alookup (applyRows env wOk rows st m).1.blob uid = some img := by
  induction rows generalizing st m with
  | nil => cases hm
  | cons p rest ih =>
    obtain ⟨k, b⟩ := p
    rw [List.map_cons, List.nodup_cons] at hnd
    obtain ⟨hknotin, hndrest⟩ := hnd
    rcases List.mem_cons.mp hm with he | hmr
    · rw [Prod.mk.injEq] at he
      obtain ⟨he1, he2⟩ := he
      subst he1
      subst he2
      have hnotin : uid ∉ rest.map Prod.fst := hknotin
      rw [applyRows]
      split
      case isTrue hcond =>
        rw [applyRows_blob_not_mem env wOk rest _ _ uid hnotin]
        exact alookup_aset_self st.blob uid _
      case isFalse hcond =>
        exact absurd ⟨hb, hw⟩ hcond
    · rw [applyRows]
      have hk : uid ≠ k := by
        rintro rfl
        exact hknotin (List.mem_map.mpr ⟨(uid, img), hmr, rfl⟩)
      split
      · refine ih _ _ hndrest hmr ?_
        rw [alookup_aset_ne _ uid k _ hk]
        exact hb
      · exact ih _ _ hndrest hmr hb

theorem addFallbacks_not_mem (fb : String) (rowIds : List Int)
    (ids : List Int) (m : List (Int × String)) (uid : Int)
    (h : uid ∉ ids) :
    alookup (addFallbacks fb rowIds ids m) uid = alookup m uid := by
  induction ids generalizing m with
  | nil => rfl
  | cons id rest ih =>
    have hne : uid ≠ id := fun he => h (by simp [he])
    have hrest : uid ∉ rest := fun hm => h (List.mem_cons_of_mem _ hm)
    rw [addFallbacks]
    rw [ih _ hrest]
    split
    · rfl
    · exact alookup_aset_ne m uid id fb hne

theorem addFallbacks_mem_rowIds (fb : String) (rowIds : List Int)
    (ids : List Int) (m : List (Int × String)) (uid : Int)
    (h : uid ∈ rowIds) :
    alookup (addFallbacks fb rowIds ids m) uid = alookup m uid := by
  induction ids generalizing m with
  | nil => rfl
  | cons id rest ih =>
    rw [addFallbacks]
    rw [ih]
    split
    · rfl
    case isFalse hnr =>
      have hne : uid ≠ id := fun he => hnr (he ▸ h)
      exact alookup_aset_ne m uid id fb hne

theorem addFallbacks_mem_fallback (fb : String) (rowIds : List Int)
    (ids : List Int) (m : List (Int × String)) (uid : Int)
    (hin : uid ∈ ids) (hnr : uid ∉ rowIds) :
    alookup (addFallbacks fb rowIds ids m) uid = some fb := by
  induction ids generalizing m with
  | nil => cases hin
  | cons id rest ih =>
    rw [addFallbacks]
    rcases List.mem_cons.mp hin with he | hrest
    · subst he
      by_cases hr : uid ∈ rest
      · exact ih _ hr
      · rw [addFallbacks_not_mem fb rowIds rest _ uid hr, if_neg hnr]
        exact alookup_aset_self m uid fb
    · exact ih _ hrest

theorem applyRows_hashIdxOK (env : Env) (wOk : Int → Bool)
    (rows : List (Int × Bytes)) (st : St) (m : List (Int × String))
    (hok : HashIdxOK env st)
    (hrows : ∀ p ∈ rows, alookup st.icons p.1 = some p.2) :
    HashIdxOK env (applyRows env wOk rows st m).1 := by
  induction rows generalizing st m with
  | nil => exact hok
  | cons p rest ih =>
    obtain ⟨uid, img⟩ := p
    rw [applyRows]
    have hicon : alookup st.icons uid = some img := hrows (uid, img) (List.mem_cons.mpr (Or.inl rfl))
    split
    case isTrue hcond =>
      refine ih _ _ ?_ ?_
      · intro uid2 h2 hl
        dsimp only at hl ⊢
        by_cases he : uid2 = uid
        · subst he
          rw [alookup_aset_self] at hl
          injection hl with hl
          subst hl
          exact Or.inl ⟨img, alookup_aset_self st.blob uid2 img, rfl⟩
        · rw [alookup_aset_ne st.hashC uid2 uid _ he] at hl
          rcases hok uid2 h2 hl with ⟨b, hb, hbe⟩ | ⟨b, hb, hbe⟩
          · exact Or.inl ⟨b, by rw [alookup_aset_ne st.blob uid2 uid _ he]; exact hb, hbe⟩
          · exact Or.inr ⟨b, hb, hbe⟩
      · intro p2 hp2
        dsimp only
        exact hrows p2 (List.mem_cons_of_mem _ hp2)
    case isFalse hcond =>
      refine ih _ _ ?_ ?_
      · intro uid2 h2 hl
        dsimp only at hl ⊢
        by_cases he : uid2 = uid
        · subst he
          rw [alookup_aset_self] at hl
          injection hl with hl
          subst hl
          exact Or.inr ⟨img, hicon, rfl⟩
        · rw [alookup_aset_ne st.hashC uid2 uid _ he] at hl
          exact hok uid2 h2 hl
      · intro p2 hp2
        exact hrows p2 (List.mem_cons_of_mem _ hp2)

theorem applyRows_blobBacked (env : Env) (wOk : Int → Bool)
    (rows : List (Int × Bytes)) (st : St) (m : List (Int × String))
    (hbk : BlobBacked st)
    (hrows : ∀ p ∈ rows, alookup st.icons p.1 = some p.2) :
    BlobBacked (applyRows env wOk rows st m).1 := by
  induction rows generalizing st m with
  | nil => exact hbk
  | cons p rest ih =>
    obtain ⟨uid, img⟩ := p
    rw [applyRows]
    have hicon : alookup st.icons uid = some img := hrows (uid, img) (List.mem_cons.mpr (Or.inl rfl))
    split
    case isTrue hcond =>
      refine ih _ _ ?_ ?_
      · intro uid2 b2 hl
        dsimp only at hl ⊢
        by_cases he : uid2 = uid
        · subst he
          exact ⟨img, hicon⟩
        · rw [alookup_aset_ne st.blob uid2 uid _ he] at hl
          exact hbk uid2 b2 hl
      · intro p2 hp2
        dsimp only
        exact hrows p2 (List.mem_cons_of_mem _ hp2)
    case isFalse hcond =>
      refine ih _ _ ?_ ?_
      · intro uid2 b2 hl
        exact hbk uid2 b2 hl
      · intro p2 hp2
        exact hrows p2 (List.mem_cons_of_mem _ hp2)


theorem getIcon_state (env : Env) (st : St) (un inm : String) (w : Bool) :
    (getIconHandler env st un inm w).2.1 = st ∨
    (∃ uid fileBytes, lookupUserByName st.users un = some uid ∧
        alookup st.blob uid = some fileBytes ∧ alookup st.hashC uid = none ∧
        (getIconHandler env st un inm w).2.1 =
          { st with hashC := aset st.hashC uid (env.H fileBytes) }) ∨
    (∃ uid image, lookupUserByName st.users un = some uid ∧
        alookup st.blob uid = none ∧ alookup st.icons uid = some image ∧
        (getIconHandler env st un inm w).2.1 =
          { st with blob := if w then aset st.blob uid image else st.blob,
                    hashC := aset st.hashC uid (env.H image) }) := by
  unfold getIconHandler
  split
  · exact Or.inl rfl
  next uid hu =>
    split
    next fileBytes hb =>
      split
      next h hh =>
        split
        · exact Or.inl rfl
        · exact Or.inl rfl
      next hh =>
        refine Or.inr (Or.inl ⟨uid, fileBytes, hu, hb, hh, ?_⟩)
        dsimp only
        split
        · rfl
        · rfl
    next hb =>
      split
      next hi => exact Or.inl rfl
      next image hi =>
        refine Or.inr (Or.inr ⟨uid, image, hu, hb, hi, ?_⟩)
        cases w
        · rfl
        · rfl

theorem postIcon_state (env : Env) (st : St) (uid : Int) (img : Bytes) (w : Bool) :
    (postIconHandler env st uid img w).2.1 =
      { users := st.users, icons := aset (aremove st.icons uid) uid img,
        themes := st.themes,
        blob := if w then aset st.blob uid img else st.blob,
        hashC := aset st.hashC uid (env.H img),
        nextIconId := st.nextIconId + 1 } := by
  cases w
  · rfl
  · rfl

theorem getIcon_hashIdxOK (env : Env) (st : St) (un inm : String) (w : Bool)
    (hok : HashIdxOK env st) :
    HashIdxOK env (getIconHandler env st un inm w).2.1 := by
  rcases getIcon_state env st un inm w with he | ⟨uid, fileBytes, _, hb, _, he⟩ |
      ⟨uid, image, _, hb, hi, he⟩
  · rw [he]
    exact hok
  · rw [he]
    intro uid2 h2 hl
    dsimp only at hl ⊢
    by_cases heq : uid2 = uid
    · subst heq
      rw [alookup_aset_self] at hl
      injection hl with hl
      subst hl
      exact Or.inl ⟨fileBytes, hb, rfl⟩
    · rw [alookup_aset_ne st.hashC uid2 uid _ heq] at hl
      exact hok uid2 h2 hl
  · rw [he]
    intro uid2 h2 hl
    dsimp only at hl ⊢
    by_cases heq : uid2 = uid
    · subst heq
      rw [alookup_aset_self] at hl
      injection hl with hl
      subst hl
      exact Or.inr ⟨image, hi, rfl⟩
    · rw [alookup_aset_ne st.hashC uid2 uid _ heq] at hl
      rcases hok uid2 h2 hl with ⟨b, hb2, hbe⟩ | ⟨b, hb2, hbe⟩
      · refine Or.inl ⟨b, ?_, hbe⟩
        cases w
        · exact hb2
        · rw [if_pos rfl, alookup_aset_ne st.blob uid2 uid _ heq]
          exact hb2
      · exact Or.inr ⟨b, hb2, hbe⟩

theorem postIcon_hashIdxOK (env : Env) (st : St) (uid : Int) (img : Bytes)
    (w : Bool) (hok : HashIdxOK env st) :
    HashIdxOK env (postIconHandler env st uid img w).2.1 := by
  rw [postIcon_state]
  intro uid2 h2 hl
  dsimp only at hl ⊢
  by_cases heq : uid2 = uid
  · subst heq
    rw [alookup_aset_self] at hl
    injection hl with hl
    subst hl
    exact Or.inr ⟨img, alookup_aset_self _ uid2 img, rfl⟩
  · rw [alookup_aset_ne st.hashC uid2 uid _ heq] at hl
    rcases hok uid2 h2 hl with ⟨b, hb2, hbe⟩ | ⟨b, hb2, hbe⟩
    · refine Or.inl ⟨b, ?_, hbe⟩
      cases w
      · exact hb2
      · rw [if_pos rfl, alookup_aset_ne st.blob uid2 uid _ heq]
        exact hb2
    · refine Or.inr ⟨b, ?_, hbe⟩
      rw [alookup_aset_ne _ uid2 uid _ heq, alookup_aremove_ne _ uid2 uid heq]
      exact hb2

theorem fill_hashIdxOK (env : Env) (st : St) (w : Int → Bool)
    (ms : List UserModel) (hok : HashIdxOK env st) :
    HashIdxOK env (fillUsersResponse env st w ms).2.1 := by
  unfold fillUsersResponse
  split
  · exact hok
  · dsimp only
    split
    · exact hok
    · refine applyRows_hashIdxOK env w _ st _ hok ?_
      intro p hp
      obtain ⟨uid, b⟩ := p
      exact ((mem_iconRows st.icons _ uid b).mp hp).2

theorem clear_hashIdxOK (env : Env) (st : St) :
    HashIdxOK env (clearIconCache st) := by
  intro uid2 h2 hl
  simp [clearIconCache, alookup] at hl

theorem reachable_hashIdxOK (env : Env) (st : St) (hr : Reachable env st) :
    HashIdxOK env st := by
  induction hr with
  | base users icons themes n =>
    intro uid h hl
    simp [alookup] at hl
  | get st un inm w _ ih => exact getIcon_hashIdxOK env st un inm w ih
  | post st uid img w _ ih => exact postIcon_hashIdxOK env st uid img w ih
  | fill st w ms _ ih => exact fill_hashIdxOK env st w ms ih
  | clear st _ _ => exact clear_hashIdxOK env st

theorem getIcon_blobBacked (env : Env) (st : St) (un inm : String) (w : Bool)
    (hbk : BlobBacked st) :
    BlobBacked (getIconHandler env st un inm w).2.1 := by
  rcases getIcon_state env st un inm w with he | ⟨uid, fileBytes, _, hb, _, he⟩ |
      ⟨uid, image, _, hb, hi, he⟩
  · rw [he]
    exact hbk
  · rw [he]
    intro uid2 b2 hl
    exact hbk uid2 b2 hl
  · rw [he]
    intro uid2 b2 hl
    dsimp only at hl ⊢
    by_cases heq : uid2 = uid
    · subst heq
      exact ⟨image, hi⟩
    · refine hbk uid2 b2 ?_
      cases w
      · exact hl
      · rw [if_pos rfl, alookup_aset_ne st.blob uid2 uid _ heq] at hl
        exact hl

theorem postIcon_blobBacked (env : Env) (st : St) (uid : Int) (img : Bytes)
    (w : Bool) (hbk : BlobBacked st) :
    BlobBacked (postIconHandler env st uid img w).2.1 := by
  rw [postIcon_state]
  intro uid2 b2 hl
  dsimp only at hl ⊢
  by_cases heq : uid2 = uid
  · subst heq
    exact ⟨img, alookup_aset_self _ uid2 img⟩
  · rw [alookup_aset_ne _ uid2 uid _ heq, alookup_aremove_ne _ uid2 uid heq]
    refine hbk uid2 b2 ?_
    cases w
    · exact hl
    · rw [if_pos rfl, alookup_aset_ne st.blob uid2 uid _ heq] at hl
      exact hl

theorem fill_blobBacked (env : Env) (st : St) (w : Int → Bool)
    (ms : List UserModel) (hbk : BlobBacked st) :
    BlobBacked (fillUsersResponse env st w ms).2.1 := by
  unfold fillUsersResponse
  split
  · exact hbk
  · dsimp only
    split
    · exact hbk
    · have hfix := applyRows_fixed env w (iconRows st.icons (uncachedIds st.hashC (dedupIds ms))) st (cachedPairs st.hashC (dedupIds ms))
      have hbb := applyRows_blobBacked env w (iconRows st.icons (uncachedIds st.hashC (dedupIds ms))) st (cachedPairs st.hashC (dedupIds ms)) hbk ?_
      · exact hbb
      · intro p hp
        obtain ⟨uid, b⟩ := p
        exact ((mem_iconRows st.icons _ uid b).mp hp).2

theorem clear_blobBacked (st : St) : BlobBacked (clearIconCache st) := by
  intro uid2 b2 hl
  simp [clearIconCache, alookup] at hl

theorem reachable_blobBacked (env : Env) (st : St) (hr : Reachable env st) :
    BlobBacked st := by
  induction hr with
  | base users icons themes n =>
    intro uid b hl
    simp [alookup] at hl
  | get st un inm w _ ih => exact getIcon_blobBacked env st un inm w ih
  | post st uid img w _ ih => exact postIcon_blobBacked env st uid img w ih
  | fill st w ms _ ih => exact fill_blobBacked env st w ms ih
  | clear st _ _ => exact clear_blobBacked st

theorem getIcon_eq_404 (env : Env) (st : St) (un inm : String) (w : Bool)
    (hu : lookupUserByName st.users un = none) :
    getIconHandler env st un inm w = (⟨404, none, none⟩, st, ⟨0, 0, 0⟩) := by
  unfold getIconHandler
  rw [hu]

theorem getIcon_eq_file_cached (env : Env) (st : St) (un inm : String)
    (w : Bool) (uid : Int) (fb : Bytes) (h : String)
    (hu : lookupUserByName st.users un = some uid)
    (hb : alookup st.blob uid = some fb)
    (hh : alookup st.hashC uid = some h) :
    getIconHandler env st un inm w =
      (if inm = quoteHash h then (⟨304, none, none⟩, st, ⟨0, 0, 0⟩)
       else (⟨200, some (quoteHash h), some fb⟩, st, ⟨0, 0, 1⟩)) := by
  unfold getIconHandler
  simp only [hu, hb, hh]

theorem getIcon_eq_file_uncached (env : Env) (st : St) (un inm : String)
    (w : Bool) (uid : Int) (fb : Bytes)
    (hu : lookupUserByName st.users un = some uid)
    (hb : alookup st.blob uid = some fb)
    (hh : alookup st.hashC uid = none) :
    getIconHandler env st un inm w =
      (if inm = quoteHash (env.H fb) then
        (⟨304, none, none⟩,
         { st with hashC := aset st.hashC uid (env.H fb) }, ⟨0, 0, 1⟩)
       else
        (⟨200, some (quoteHash (env.H fb)), some fb⟩,
         { st with hashC := aset st.hashC uid (env.H fb) }, ⟨0, 0, 2⟩)) := by
  unfold getIconHandler
  simp only [hu, hb, hh]

theorem getIcon_eq_db_miss (env : Env) (st : St) (un inm : String) (w : Bool)
    (uid : Int)
    (hu : lookupUserByName st.users un = some uid)
    (hb : alookup st.blob uid = none)
    (hi : alookup st.icons uid = none) :
    getIconHandler env st un inm w =
      (condStep env.fbHash env.fallbackBytes inm, st, ⟨1, 0, 0⟩) := by
  unfold getIconHandler
  simp only [hu, hb, hi]

theorem getIcon_eq_db_hit (env : Env) (st : St) (un inm : String) (w : Bool)
    (uid : Int) (image : Bytes)
    (hu : lookupUserByName st.users un = some uid)
    (hb : alookup st.blob uid = none)
    (hi : alookup st.icons uid = some image) :
    getIconHandler env st un inm w =
      (condStep (env.H image) image inm,
       { st with blob := if w then aset st.blob uid image else st.blob,
                 hashC := aset st.hashC uid (env.H image) }, ⟨1, 0, 0⟩) := by
  unfold getIconHandler
  simp only [hu, hb, hi]
  cases w
  · rfl
  · rfl

theorem postIcon_resp (env : Env) (st : St) (uid : Int) (img : Bytes)
    (w : Bool) : (postIconHandler env st uid img w).1 = ⟨201, st.nextIconId⟩ := by
  cases w
  · rfl
  · rfl

theorem buildUsers_length (env : Env) (t : List ThemeModel)
    (m : List (Int × String)) (ms : List UserModel) :
    (buildUsers env t m ms).length = ms.length :=
  List.length_map ms _

theorem buildUsers_id (env : Env) (t : List ThemeModel)
    (m : List (Int × String)) (ms : List UserModel) (i : Nat) :
    ((buildUsers env t m ms)[i]?).map User.id = (ms[i]?).map UserModel.id := by
  unfold buildUsers
  rw [List.getElem?_map]
  cases ms[i]? with
  | none => rfl
  | some um => rfl

theorem buildUsers_iconHash_ne_empty (env : Env) (t : List ThemeModel)
    (m : List (Int × String)) (ms : List UserModel) (hfb : env.fbHash ≠ "") :
    ∀ u ∈ buildUsers env t m ms, u.iconHash ≠ "" := by
  intro u hu
  obtain ⟨um, _, he⟩ := List.mem_map.mp hu
  subst he
  dsimp only
  split
  · exact hfb
  case isFalse hne => exact hne

theorem buildUsers_iconHash_of_alookup (env : Env) (t : List ThemeModel)
    (m : List (Int × String)) (ms : List UserModel) (uid : Int) (h : String)
    (hl : alookup m uid = some h) :
    ∀ u ∈ buildUsers env t m ms, u.id = uid →
      u.iconHash = if h = "" then env.fbHash else h := by
  intro u hu hid
  obtain ⟨um, _, he⟩ := List.mem_map.mp hu
  subst he
  have hid2 : um.id = uid := hid
  dsimp only
  rw [hid2, hl]
  rfl

/-- Sample concrete environment for witnesses and counterexamples: the
digest of a byte list is the decimal rendering of its length (any
concrete function works, since the model treats the digest abstractly),
and the fallback image is the single byte 9. -/
def sampleEnv : Env := ⟨fun b => toString b.length, [9]⟩

/-- C2: for every resolved icon hash and every If-None-Match validator,
the conditional-response step returns 304 with no body exactly when the
validator is string-equal to the quoted hash (exact equality, so weak
validators and wildcards never match), and otherwise returns the bytes
with the quoted-hash ETag validator attached. -/
theorem c2_cond_response (h : String) (b : Bytes) (v : String) :
    (condStep h b v = ⟨304, none, none⟩ ↔ v = quoteHash h) ∧
    (v ≠ quoteHash h → condStep h b v = ⟨200, some (quoteHash h), some b⟩) := by
  constructor
  · constructor
    · intro he
      by_contra hne
      rw [condStep, if_neg hne] at he
      injection he with h1 h2 h3
      exact absurd h1 (by decide)
    · intro he
      rw [condStep, if_pos he]
  · intro hne
    rw [condStep, if_neg hne]

/-- Witness for C2 at a concrete input: the wildcard validator does not
match, giving a 200 with the quoted-hash ETag. -/
theorem c2_witness :
    "*" ≠ quoteHash "abc" ∧
    condStep "abc" [1] "*" = ⟨200, some (quoteHash "abc"), some [1]⟩ :=
  ⟨by decide, (c2_cond_response "abc" [1] "*").2 (by decide)⟩

/-- C5: in the upload path with a successful cache write, the trace has
the durable-store commit strictly before the blob cache overwrite,
which is strictly before the hash index overwrite; the response is 201,
the durable store holds the uploaded bytes, and the hash index entry
for the uploader equals the digest of the uploaded bytes. -/
theorem c5_upload_ordering (env : Env) (st : St) (uid : Int) (img : Bytes) :
    (∃ i j k : Fin (postIconHandler env st uid img true).2.2.length,
        i < j ∧ j < k ∧
        (postIconHandler env st uid img true).2.2.get i = Ev.dbCommit ∧
        (postIconHandler env st uid img true).2.2.get j = Ev.blobWriteOk ∧
        (postIconHandler env st uid img true).2.2.get k = Ev.hashSet) ∧
    (postIconHandler env st uid img true).1.status = 201 ∧
    alookup (postIconHandler env st uid img true).2.1.icons uid = some img ∧
    alookup (postIconHandler env st uid img true).2.1.hashC uid = some (env.H img) := by
  have htr : (postIconHandler env st uid img true).2.2 =
      [Ev.dbDelete, Ev.dbInsert, Ev.dbCommit, Ev.blobWriteOk, Ev.hashSet] := rfl
  refine ⟨?_, rfl, ?_, ?_⟩
  · rw [htr]
    exact ⟨⟨2, by decide⟩, ⟨3, by decide⟩, ⟨4, by decide⟩,
      by decide, by decide, rfl, rfl, rfl⟩
  · rw [postIcon_state]
    exact alookup_aset_self _ uid img
  · rw [postIcon_state]
    exact alookup_aset_self _ uid _

/-- C6: for every input list of user models, the bulk-fill path issues
exactly one batched icons-table query when at least one (deduplicated)
id has no hash index entry, and zero such queries when every id already
has an entry, regardless of the size of the input. -/
theorem c6_bulk_query_count (env : Env) (st : St) (w : Int → Bool)
    (ms : List UserModel) :
    (fillUsersResponse env st w ms).2.2.iconQueries =
      if ms.any (fun m => (alookup st.hashC m.id).isNone) then 1 else 0 := by
  unfold fillUsersResponse
  split
  case isTrue hem =>
    rw [List.isEmpty_iff] at hem
    subst hem
    rfl
  case isFalse hem =>
    dsimp only
    split
    case isTrue hunc =>
      rw [List.isEmpty_iff] at hunc
      have hany : ms.any (fun m => (alookup st.hashC m.id).isNone) = false := by
        rw [List.any_eq_false]
        intro m hm
        intro hn
        have hmem : m.id ∈ uncachedIds st.hashC (dedupIds ms) :=
          (mem_uncachedIds _ _ _).mpr
            ⟨(mem_dedupIds ms m.id).mpr ⟨m, hm, rfl⟩, Option.isNone_iff_eq_none.mp hn⟩
        rw [hunc] at hmem
        cases hmem
      rw [hany]
      rfl
    case isFalse hunc =>
      have hne : uncachedIds st.hashC (dedupIds ms) ≠ [] := by
        intro he
        exact hunc (by rw [he]; rfl)
      obtain ⟨uid, hmem⟩ := List.exists_mem_of_ne_nil _ hne
      obtain ⟨hin, hnone⟩ := (mem_uncachedIds _ _ _).mp hmem
      obtain ⟨m, hm, hid⟩ := (mem_dedupIds ms uid).mp hin
      have hany : ms.any (fun m => (alookup st.hashC m.id).isNone) = true := by
        rw [List.any_eq_true]
        exact ⟨m, hm, by rw [hid, hnone]; rfl⟩
      rw [hany]
      rfl

/-- C9: a failure of the blob cache filesystem write changes neither
the status, headers, nor body of the response of GET /icon or POST
/icon; the handler completes with the bytes already in hand. -/
theorem c9_cache_write_transparent (env : Env) (st : St) (un inm : String)
    (uid : Int) (img : Bytes) :
    (getIconHandler env st un inm true).1 = (getIconHandler env st un inm false).1 ∧
    (postIconHandler env st uid img true).1 = (postIconHandler env st uid img false).1 := by
  constructor
  · cases hu : lookupUserByName st.users un with
    | none => rw [getIcon_eq_404 env st un inm true hu, getIcon_eq_404 env st un inm false hu]
    | some uid2 =>
      cases hb : alookup st.blob uid2 with
      | some fb =>
        cases hh : alookup st.hashC uid2 with
        | some h =>
          rw [getIcon_eq_file_cached env st un inm true uid2 fb h hu hb hh,
            getIcon_eq_file_cached env st un inm false uid2 fb h hu hb hh]
        | none =>
          rw [getIcon_eq_file_uncached env st un inm true uid2 fb hu hb hh,
            getIcon_eq_file_uncached env st un inm false uid2 fb hu hb hh]
      | none =>
        cases hi : alookup st.icons uid2 with
        | none =>
          rw [getIcon_eq_db_miss env st un inm true uid2 hu hb hi,
            getIcon_eq_db_miss env st un inm false uid2 hu hb hi]
        | some image =>
          rw [getIcon_eq_db_hit env st un inm true uid2 image hu hb hi,
            getIcon_eq_db_hit env st un inm false uid2 image hu hb hi]
  · rw [postIcon_resp, postIcon_resp]

/-- C10: bulk fill of the empty user list returns an empty list,
performs no durable-store queries at all, and leaves the whole state
(hash index and blob cache included) unchanged. -/
theorem c10_empty_fill (env : Env) (st : St) (w : Int → Bool) :
    fillUsersResponse env st w [] = ([], st, ⟨0, 0, 0⟩) := rfl

/-- Counterexample state for C3: an upload whose best-effort blob cache
write failed, leaving an icons row and a hash index entry but no blob
file (the same shape also arises after a process restart, which clears
the in-memory map but not the durable rows). -/
def c3xSt : St :=
  (postIconHandler sampleEnv ⟨[(1, "alice")], [], [], [], [], 0⟩ 1 [0] false).2.1

/-- Counterexample for C3: in a reachable state whose hash index holds
the entry for user 1 while the blob cache file is missing, a request
whose If-None-Match equals the quoted entry is answered 304 only after
a durable-store icons query, contradicting the claim that the 304 is
produced without reading from the icons table. -/
theorem c3_counterexample :
    Reachable sampleEnv c3xSt ∧
    lookupUserByName c3xSt.users "alice" = some 1 ∧
    alookup c3xSt.hashC 1 = some (sampleEnv.H [0]) ∧
    alookup c3xSt.blob 1 = none ∧
    (getIconHandler sampleEnv c3xSt "alice" (quoteHash (sampleEnv.H [0])) true).1.status = 304 ∧
    (getIconHandler sampleEnv c3xSt "alice" (quoteHash (sampleEnv.H [0])) true).2.2.iconQueries = 1 :=
  ⟨Reachable.post _ _ _ _ (Reachable.base _ _ _ _),
    by decide, by decide, by decide, by decide, by decide⟩

/-- C3 (amended): when the hash index contains an entry for the user
AND the blob cache file for the user exists, a request whose
If-None-Match equals the quoted entry is answered 304 with no body,
with no icons-table query, no theme query, no read of the blob file
bytes, and no state change.  (The amendment adds the existence of the
blob cache file, which the code checks before consulting the entry:
without it the handler falls through to the durable store.) -/
theorem c3_hash_hit_short_circuit (env : Env) (st : St) (un inm : String)
    (w : Bool) (uid : Int) (h : String) (b : Bytes)
    (hu : lookupUserByName st.users un = some uid)
    (hh : alookup st.hashC uid = some h)
    (hb : alookup st.blob uid = some b)
    (hm : inm = quoteHash h) :
    getIconHandler env st un inm w = (⟨304, none, none⟩, st, ⟨0, 0, 0⟩) := by
  rw [getIcon_eq_file_cached env st un inm w uid b h hu hb hh, if_pos hm]

/-- Witness state for the amended C3: an upload whose blob cache write
succeeded, so both the hash index entry and the blob file exist. -/
def c3wSt : St :=
  (postIconHandler sampleEnv ⟨[(1, "alice")], [], [], [], [], 0⟩ 1 [0] true).2.1

/-- Witness for the amended C3 at a concrete input. -/
theorem c3_witness :
    lookupUserByName c3wSt.users "alice" = some 1 ∧
    alookup c3wSt.hashC 1 = some (sampleEnv.H [0]) ∧
    alookup c3wSt.blob 1 = some [0] ∧
    getIconHandler sampleEnv c3wSt "alice" (quoteHash (sampleEnv.H [0])) true =
      (⟨304, none, none⟩, c3wSt, ⟨0, 0, 0⟩) :=
  ⟨by decide, by decide, by decide,
    c3_hash_hit_short_circuit sampleEnv c3wSt "alice" (quoteHash (sampleEnv.H [0])) true
      1 (sampleEnv.H [0]) [0] (by decide) (by decide) (by decide) rfl⟩

/-- C4: in every state reachable by any sequence of the core operations
(single fetch, bulk fill, icon upload, cache clear) from a fresh
process, every hash index entry equals the digest of the bytes the blob
cache or the durable store currently holds for that user. -/
theorem c4_hash_index_coherent (env : Env) (st : St) (hr : Reachable env st) :
    HashIdxOK env st :=
  reachable_hashIdxOK env st hr

/-- Witness state for C4: an upload followed by a single fetch. -/
def c4wSt : St :=
  (getIconHandler sampleEnv
    (postIconHandler sampleEnv ⟨[(1, "alice")], [], [], [], [], 0⟩ 1 [5, 6] true).2.1
    "alice" "" true).2.1

/-- Witness for C4 at a concrete reachable state. -/
theorem c4_witness : HashIdxOK sampleEnv c4wSt :=
  c4_hash_index_coherent sampleEnv c4wSt
    (Reachable.get _ _ _ _ (Reachable.post _ _ _ _ (Reachable.base _ _ _ _)))

/-- C1 (amended): for every GET /icon request in a reachable state, (a)
an unknown username yields 404; (b) an existing user with no icons row
yields 200 with the fallback bytes and an ETag equal to the quoted
fallback hash (hence identical across repeated calls and across
distinct icon-less users) whenever the request validator differs from
that quoted hash; (c) an existing user with an icons row, PROVIDED the
blob cache file for that user (when present) holds the same bytes as
the durable store, yields 304 with no body when If-None-Match equals
the quoted digest of those bytes, and otherwise 200 with the icon bytes
and the quoted digest of the body as ETag.  (The proviso in (c) is the
amendment: after an upload whose best-effort blob cache write failed,
the handler serves the stale file with the new digest as ETag, see the
counterexample.) -/
theorem c1_get_icon_contract (env : Env) (st : St) (un inm : String)
    (w : Bool) (hr : Reachable env st) :
    (lookupUserByName st.users un = none →
      getIconHandler env st un inm w = (⟨404, none, none⟩, st, ⟨0, 0, 0⟩)) ∧
    (∀ uid, lookupUserByName st.users un = some uid →
      alookup st.icons uid = none → inm ≠ quoteHash env.fbHash →
      (getIconHandler env st un inm w).1 =
        ⟨200, some (quoteHash env.fbHash), some env.fallbackBytes⟩) ∧
    (∀ uid B, lookupUserByName st.users un = some uid →
      alookup st.icons uid = some B →
      (∀ b, alookup st.blob uid = some b → b = B) →
      ((inm = quoteHash (env.H B) →
          (getIconHandler env st un inm w).1 = ⟨304, none, none⟩) ∧
       (inm ≠ quoteHash (env.H B) →
          (getIconHandler env st un inm w).1 =
            ⟨200, some (quoteHash (env.H B)), some B⟩))) := by
  refine ⟨fun hu => getIcon_eq_404 env st un inm w hu, ?_, ?_⟩
  · intro uid hu hi hne
    cases hb : alookup st.blob uid with
    | some b =>
      obtain ⟨b2, hrow⟩ := reachable_blobBacked env st hr uid b hb
      rw [hi] at hrow
      cases hrow
    | none =>
      rw [getIcon_eq_db_miss env st un inm w uid hu hb hi]
      dsimp only
      rw [condStep, if_neg hne]
  · intro uid B hu hiB hag
    cases hb : alookup st.blob uid with
    | none =>
      rw [getIcon_eq_db_hit env st un inm w uid B hu hb hiB]
      constructor
      · intro hm
        dsimp only
        rw [condStep, if_pos hm]
      · intro hm
        dsimp only
        rw [condStep, if_neg hm]
    | some b =>
      have hbB : b = B := hag b hb
      subst hbB
      cases hh : alookup st.hashC uid with
      | none =>
        rw [getIcon_eq_file_uncached env st un inm w uid b hu hb hh]
        constructor
        · intro hm
          rw [if_pos hm]
        · intro hm
          rw [if_neg hm]
      | some h =>
        have hhB : h = env.H b := by
          rcases reachable_hashIdxOK env st hr uid h hh with ⟨b2, hb2, he⟩ | ⟨b2, hb2, he⟩
          · rw [hb] at hb2
            injection hb2 with hb2
            rw [he, hb2]
          · rw [hiB] at hb2
            injection hb2 with hb2
            rw [he, hb2]
        subst hhB
        rw [getIcon_eq_file_cached env st un inm w uid b (env.H b) hu hb hh]
        constructor
        · intro hm
          rw [if_pos hm]
        · intro hm
          rw [if_neg hm]

/-- Base state for the C1 counterexample: one user, no icons yet. -/
def c1xSt0 : St := ⟨[(1, "alice")], [], [], [], [], 0⟩

/-- C1 counterexample state: user 1 uploads bytes `[0]` (cache write
succeeds), then uploads bytes `[0, 1]` but the best-effort blob cache
write fails, leaving the old file on disk with the new hash index
entry.  The same shape arises whenever `os.WriteFile` fails in
`postIconHandler`. -/
def c1xSt2 : St :=
  (postIconHandler sampleEnv
    (postIconHandler sampleEnv c1xSt0 1 [0] true).2.1 1 [0, 1] false).2.1

/-- Counterexample for C1: in this reachable state the user exists and
has an icon (bytes `[0, 1]` in the durable store), yet an unconditional
GET returns 200 whose body is the stale cached bytes `[0]` and whose
ETag is the quoted digest of `[0, 1]` — the ETag is not the digest of
the body and the body is not the stored icon, refuting the claim as
stated. -/
theorem c1_counterexample :
    Reachable sampleEnv c1xSt2 ∧
    lookupUserByName c1xSt2.users "alice" = some 1 ∧
    alookup c1xSt2.icons 1 = some [0, 1] ∧
    (getIconHandler sampleEnv c1xSt2 "alice" "" true).1.status = 200 ∧
    (getIconHandler sampleEnv c1xSt2 "alice" "" true).1.body = some [0] ∧
    (getIconHandler sampleEnv c1xSt2 "alice" "" true).1.body ≠ some [0, 1] ∧
    (getIconHandler sampleEnv c1xSt2 "alice" "" true).1.etag =
      some (quoteHash (sampleEnv.H [0, 1])) ∧
    (getIconHandler sampleEnv c1xSt2 "alice" "" true).1.etag ≠
      some (quoteHash (sampleEnv.H [0])) :=
  ⟨Reachable.post _ _ _ _ (Reachable.post _ _ _ _ (Reachable.base _ _ _ _)),
    by decide, by decide, by decide, by decide, by decide, by decide, by decide⟩

/-- Witness state for the amended C1: a fresh process with one user
whose icon bytes `[7]` are already in the durable store. -/
def c1wSt : St := ⟨[(1, "alice")], [(1, [7])], [], [], [], 0⟩

/-- Witness for the amended C1 at a concrete input: an unconditional
GET for a user with a stored icon returns 200 with the icon bytes and
the quoted digest as ETag. -/
theorem c1_witness :
    lookupUserByName c1wSt.users "alice" = some 1 ∧
    alookup c1wSt.icons 1 = some [7] ∧
    (getIconHandler sampleEnv c1wSt "alice" "" true).1 =
      ⟨200, some (quoteHash (sampleEnv.H [7])), some [7]⟩ :=
  ⟨by decide, by decide,
    ((c1_get_icon_contract sampleEnv c1wSt "alice" "" true
        (Reachable.base _ _ _ _)).2.2 1 [7] (by decide) (by decide)
      (fun b hb => Option.noConfusion hb)).2 (by decide)⟩

theorem fillUsers_eq_uncached (env : Env) (st : St) (w : Int → Bool)
    (ms : List UserModel) (hms : ms.isEmpty = false)
    (hunc : (uncachedIds st.hashC (dedupIds ms)).isEmpty = false) :
    fillUsersResponse env st w ms =
      (buildUsers env st.themes
        (addFallbacks env.fbHash
          ((iconRows st.icons (uncachedIds st.hashC (dedupIds ms))).map Prod.fst)
          (uncachedIds st.hashC (dedupIds ms))
          (applyRows env w (iconRows st.icons (uncachedIds st.hashC (dedupIds ms))) st
            (cachedPairs st.hashC (dedupIds ms))).2) ms,
       (applyRows env w (iconRows st.icons (uncachedIds st.hashC (dedupIds ms))) st
         (cachedPairs st.hashC (dedupIds ms))).1,
       ⟨1, 1, 0⟩) := by
  unfold fillUsersResponse
  rw [hms, if_neg Bool.false_ne_true]
  dsimp only
  rw [hunc, if_neg Bool.false_ne_true]

theorem fillUsers_eq_cached (env : Env) (st : St) (w : Int → Bool)
    (ms : List UserModel) (hms : ms.isEmpty = false)
    (hunc : (uncachedIds st.hashC (dedupIds ms)).isEmpty = true) :
    fillUsersResponse env st w ms =
      (buildUsers env st.themes (cachedPairs st.hashC (dedupIds ms)) ms, st,
       ⟨0, 1, 0⟩) := by
  unfold fillUsersResponse
  rw [hms, if_neg Bool.false_ne_true]
  dsimp only
  rw [hunc, if_pos rfl]

theorem fillUsers_cases (env : Env) (st : St) (w : Int → Bool)
    (ms : List UserModel) :
    (ms = [] ∧ fillUsersResponse env st w ms = ([], st, ⟨0, 0, 0⟩)) ∨
    (∃ M st2 e, fillUsersResponse env st w ms =
      (buildUsers env st.themes M ms, st2, e)) := by
  cases hms : ms.isEmpty with
  | true =>
    rw [List.isEmpty_iff] at hms
    exact Or.inl ⟨hms, by rw [hms]; rfl⟩
  | false =>
    cases hunc : (uncachedIds st.hashC (dedupIds ms)).isEmpty with
    | true =>
      exact Or.inr ⟨_, _, _, fillUsers_eq_cached env st w ms hms hunc⟩
    | false =>
      exact Or.inr ⟨_, _, _, fillUsers_eq_uncached env st w ms hms hunc⟩

/-- C7: bulk fill maps every requested id to a hash: the result list
has one entry per input model with matching ids, every icon hash field
is non-empty (given the fallback hash is non-empty, as a hex digest
always is), every uncached id for which the batched query returned no
row is assigned the fallback hash, and no hash index entry is created
for such ids (no negative caching). -/
theorem c7_bulk_complete_mapping (env : Env) (st : St) (w : Int → Bool)
    (ms : List UserModel) (hfb : env.fbHash ≠ "") :
    (fillUsersResponse env st w ms).1.length = ms.length ∧
    (∀ i : Nat, (((fillUsersResponse env st w ms).1)[i]?).map User.id =
      (ms[i]?).map UserModel.id) ∧
    (∀ u ∈ (fillUsersResponse env st w ms).1, u.iconHash ≠ "") ∧
    (∀ m ∈ ms, alookup st.hashC m.id = none → alookup st.icons m.id = none →
      (∀ u ∈ (fillUsersResponse env st w ms).1, u.id = m.id →
        u.iconHash = env.fbHash) ∧
      alookup (fillUsersResponse env st w ms).2.1.hashC m.id = none) := by
  refine ⟨?_, ?_, ?_, ?_⟩
  · rcases fillUsers_cases env st w ms with ⟨hnil, hout⟩ | ⟨M, st2, e, hout⟩
    · rw [hout, hnil]
      rfl
    · rw [hout]
      exact buildUsers_length env st.themes M ms
  · rcases fillUsers_cases env st w ms with ⟨hnil, hout⟩ | ⟨M, st2, e, hout⟩
    · intro i
      rw [hout, hnil]
      rfl
    · intro i
      rw [hout]
      exact buildUsers_id env st.themes M ms i
  · rcases fillUsers_cases env st w ms with ⟨hnil, hout⟩ | ⟨M, st2, e, hout⟩
    · intro u hu
      rw [hout] at hu
      cases hu
    · intro u hu
      rw [hout] at hu
      exact buildUsers_iconHash_ne_empty env st.themes M ms hfb u hu
  · intro m hm hnone hrow
    have hmsne : ms.isEmpty = false := by
      cases ms
      · cases hm
      · rfl
    have hin : m.id ∈ dedupIds ms := (mem_dedupIds ms m.id).mpr ⟨m, hm, rfl⟩
    have hmemunc : m.id ∈ uncachedIds st.hashC (dedupIds ms) :=
      (mem_uncachedIds _ _ _).mpr ⟨hin, hnone⟩
    have huncne : (uncachedIds st.hashC (dedupIds ms)).isEmpty = false := by
      cases hcase : uncachedIds st.hashC (dedupIds ms) with
      | nil =>
        rw [hcase] at hmemunc
        cases hmemunc
      | cons a l => rfl
    have hnotrow :
        m.id ∉ (iconRows st.icons (uncachedIds st.hashC (dedupIds ms))).map Prod.fst := by
      intro hmem
      obtain ⟨_, b, hb⟩ := (mem_iconRows_keys st.icons _ m.id).mp hmem
      rw [hrow] at hb
      cases hb
    rw [fillUsers_eq_uncached env st w ms hmsne huncne]
    constructor
    · have hM : alookup
          (addFallbacks env.fbHash
            ((iconRows st.icons (uncachedIds st.hashC (dedupIds ms))).map Prod.fst)
            (uncachedIds st.hashC (dedupIds ms))
            (applyRows env w (iconRows st.icons (uncachedIds st.hashC (dedupIds ms))) st
              (cachedPairs st.hashC (dedupIds ms))).2) m.id = some env.fbHash :=
        addFallbacks_mem_fallback env.fbHash _ _ _ m.id hmemunc hnotrow
      intro u hu hid
      have hres := buildUsers_iconHash_of_alookup env st.themes _ ms m.id env.fbHash hM u hu hid
      rw [hres]
      split
      · rfl
      · rfl
    · dsimp only
      rw [applyRows_hashC_not_mem env w _ st _ m.id hnotrow]
      exact hnone

/-- Witness state and model for C7: one user with no cache entries and
no icon row, so the batched query returns nothing for them. -/
def c7wSt : St := ⟨[(1, "bob")], [], [], [], [], 0⟩

/-- Witness user model for C7. -/
def c7um : UserModel := ⟨1, "bob", "Bob", "d", "p"⟩

/-- Witness for C7 at a concrete input: the hypothesis holds for the
sample environment and the single requested user is mapped to the
fallback hash with no hash index entry created. -/
theorem c7_witness :
    sampleEnv.fbHash ≠ "" ∧
    (fillUsersResponse sampleEnv c7wSt (fun _ => true) [c7um]).1.length = [c7um].length :=
  ⟨by decide,
    (c7_bulk_complete_mapping sampleEnv c7wSt (fun _ => true) [c7um] (by decide)).1⟩

/-- Counterexample state for C8: user 1 has durable icon bytes
`[2, 2, 2]`, no hash index entry, and a stale blob cache file holding
`[9]` (this arises after a process restart clears the in-memory hash
index while the cache directory persists, following an upload whose
blob write had failed). -/
def c8xSt : St := ⟨[(1, "alice")], [(1, [2, 2, 2])], [], [(1, [9])], [], 0⟩

/-- Counterexample user models for C8. -/
def c8xMs : List UserModel := [⟨1, "alice", "A", "d", "p"⟩]

/-- Counterexample for C8: the batched query returns the pair
`(1, [2, 2, 2])` (the id is uncached and has a row), the digest is
computed, stored in the hash index and recorded in the result, but the
image bytes are NOT written to the blob cache file: the file keeps the
different bytes `[9]`, because the code writes only when no file
exists.  This refutes the claim that every returned pair is written
through to the blob cache. -/
theorem c8_counterexample :
    alookup c8xSt.hashC 1 = none ∧
    alookup c8xSt.icons 1 = some [2, 2, 2] ∧
    alookup (fillUsersResponse sampleEnv c8xSt (fun _ => true) c8xMs).2.1.hashC 1 =
      some (sampleEnv.H [2, 2, 2]) ∧
    alookup (fillUsersResponse sampleEnv c8xSt (fun _ => true) c8xMs).2.1.blob 1 =
      some [9] ∧
    ([9] : Bytes) ≠ [2, 2, 2] :=
  ⟨by decide, by decide, by decide, by decide, by decide⟩

/-- C8 (amended): for every pair (user id, image) returned by the
bulk-fill batched query — i.e. every requested id with no hash index
entry and an icons row — the path computes the digest of the image,
stores it in the hash index, records it in the result mapping for that
id, and writes the image bytes to the blob cache file ONLY IF no such
file exists (best-effort: a failed write is also tolerated); a
pre-existing file is left untouched.  (The amendment restricts the
write-through to the no-file case, which is what the `os.IsNotExist`
guard in the code does.) -/
theorem c8_bulk_row_processing (env : Env) (st : St) (w : Int → Bool)
    (ms : List UserModel) (uid : Int) (img : Bytes)
    (hmem : ∃ m ∈ ms, m.id = uid)
    (hun : alookup st.hashC uid = none)
    (hrow : alookup st.icons uid = some img)
    (hH : env.H img ≠ "") :
    alookup (fillUsersResponse env st w ms).2.1.hashC uid = some (env.H img) ∧
    (alookup st.blob uid = none → w uid = true →
      alookup (fillUsersResponse env st w ms).2.1.blob uid = some img) ∧
    (∀ b, alookup st.blob uid = some b →
      alookup (fillUsersResponse env st w ms).2.1.blob uid = some b) ∧
    (∀ u ∈ (fillUsersResponse env st w ms).1, u.id = uid →
      u.iconHash = env.H img) := by
  obtain ⟨m, hm, hid⟩ := hmem
  have hmsne : ms.isEmpty = false := by
    cases ms
    · cases hm
    · rfl
  have hin : uid ∈ dedupIds ms := (mem_dedupIds ms uid).mpr ⟨m, hm, hid⟩
  have hmemunc : uid ∈ uncachedIds st.hashC (dedupIds ms) :=
    (mem_uncachedIds _ _ _).mpr ⟨hin, hun⟩
  have huncne : (uncachedIds st.hashC (dedupIds ms)).isEmpty = false := by
    cases hcase : uncachedIds st.hashC (dedupIds ms) with
    | nil =>
      rw [hcase] at hmemunc
      cases hmemunc
    | cons a l => rfl
  have hndk : ((iconRows st.icons (uncachedIds st.hashC (dedupIds ms))).map Prod.fst).Nodup :=
    nodup_iconRows_keys st.icons _ (nodup_uncachedIds _ _ (nodup_dedupIds ms))
  have hrowmem : (uid, img) ∈ iconRows st.icons (uncachedIds st.hashC (dedupIds ms)) :=
    (mem_iconRows st.icons _ uid img).mpr ⟨hmemunc, hrow⟩
  have hkeymem : uid ∈ (iconRows st.icons (uncachedIds st.hashC (dedupIds ms))).map Prod.fst :=
    (mem_iconRows_keys st.icons _ uid).mpr ⟨hmemunc, img, hrow⟩
  rw [fillUsers_eq_uncached env st w ms hmsne huncne]
  refine ⟨?_, ?_, ?_, ?_⟩
  · dsimp only
    exact applyRows_hashC_mem env w _ st _ uid img hndk hrowmem
  · intro hb hw
    dsimp only
    exact applyRows_blob_write env w _ st _ uid img hndk hrowmem hb hw
  · intro b hb
    dsimp only
    exact applyRows_blob_some env w _ st _ uid b hb
  · have hM : alookup
        (addFallbacks env.fbHash
          ((iconRows st.icons (uncachedIds st.hashC (dedupIds ms))).map Prod.fst)
          (uncachedIds st.hashC (dedupIds ms))
          (applyRows env w (iconRows st.icons (uncachedIds st.hashC (dedupIds ms))) st
            (cachedPairs st.hashC (dedupIds ms))).2) uid = some (env.H img) := by
      rw [addFallbacks_mem_rowIds env.fbHash _ _ _ uid hkeymem]
      exact applyRows_m_mem env w _ st _ uid img hndk hrowmem
    intro u hu huid
    have hres := buildUsers_iconHash_of_alookup env st.themes _ ms uid (env.H img) hM u hu huid
    rw [hres, if_neg hH]

/-- Witness state for the amended C8: user 1 has icon bytes `[4, 4]` in
the durable store, no cache entries at all. -/
def c8wSt : St := ⟨[(1, "carol")], [(1, [4, 4])], [], [], [], 0⟩

/-- Witness user models for the amended C8. -/
def c8wMs : List UserModel := [⟨1, "carol", "C", "d", "p"⟩]

/-- Witness for the amended C8 at a concrete input: the returned pair
is digested into the hash index and, the blob file being absent and the
write succeeding, written through to the blob cache. -/
theorem c8_witness :
    (∃ m ∈ c8wMs, m.id = 1) ∧
    alookup (fillUsersResponse sampleEnv c8wSt (fun _ => true) c8wMs).2.1.hashC 1 =
      some (sampleEnv.H [4, 4]) ∧
    alookup (fillUsersResponse sampleEnv c8wSt (fun _ => true) c8wMs).2.1.blob 1 =
      some [4, 4] :=
  ⟨⟨⟨1, "carol", "C", "d", "p"⟩, List.mem_cons.mpr (Or.inl rfl), rfl⟩,
    (c8_bulk_row_processing sampleEnv c8wSt (fun _ => true) c8wMs 1 [4, 4]
      ⟨⟨1, "carol", "C", "d", "p"⟩, List.mem_cons.mpr (Or.inl rfl), rfl⟩
      (by decide) (by decide) (by decide)).1,
    (c8_bulk_row_processing sampleEnv c8wSt (fun _ => true) c8wMs 1 [4, 4]
      ⟨⟨1, "carol", "C", "d", "p"⟩, List.mem_cons.mpr (Or.inl rfl), rfl⟩
      (by decide) (by decide) (by decide)).2.1 (by decide) rfl⟩
